import Mathlib

/-!
Verification of the DarkFi lottery simulation engine
(`script/research/lotterysim/core/lottery.py`, class `DarkfiTable`) and of the
blockchain-explorer search endpoint
(`script/research/blockchain-explorer/site/app.py`).

The engine's per-slot loop (`DarkfiTable.background`) is embedded as a step
function `slotStep` over an explicit `EngineState`, iterated by `bgLoop`.
Python floats are modelled by `ℚ`; Python runtime errors (AssertionError,
IndexError on `rewards[-1]`, NameError on an unassigned `acc`,
ZeroDivisionError in the summary averages) are modelled by `Except String`.

The participant class `Darkie` (file `core/darkie.py`) and the PID
controllers (file `pid/cascade.py`) are code of this repository that is not
under the sources given here; following the specification they are treated as
injected capabilities: the controllers as clipped transfer functions over
their input history (spec section 4.1: `output = clip(transfer(error_input))`,
with a fixed clipping range), the participant's lottery draw, stake updates
and summary queries as opaque injected functions (spec sections 4.2 and 9).
-/

namespace Lotterysim

/-- Participant state, from `core/darkie.py` as described by the spec
(section 4.2): a stake and the per-slot outcome history `won_hist`. -/
structure Darkie where
  stake : ℚ
  won_hist : List Bool
deriving DecidableEq

/-- Modelled from the spec: the secondary PID controller of `pid/cascade.py`
(not under the given sources).  Spec section 4.1: the controller is a clipped
transfer `output = clip(transfer(error_input))` with a clipping range fixed at
construction; the transfer strategy and the accuracy accumulator are opaque,
so they are injected as functions of the input history fed to the controller
so far. -/
structure SecondaryPid where
  raw : List ℚ → ℚ
  clip_min : ℚ
  clip_max : ℚ
  accFn : List ℚ → ℚ
  accPctFn : List ℚ → ℚ

/-- Modelled from the spec: the primary PID controller of `pid/cascade.py`
(not under the given sources), same contract as `SecondaryPid`. -/
structure PrimaryPid where
  raw : List ℚ → ℚ
  clip_min : ℚ
  clip_max : ℚ

/-- Clipping to the range `[lo, hi]` (spec section 4.1). -/
def clipQ (lo hi x : ℚ) : ℚ := max lo (min hi x)

/-- `pid_clipped` of the secondary controller: clipped output on the history
of measured values fed to it (current value last). -/
def SecondaryPid.pid_clipped (p : SecondaryPid) (hist : List ℚ) : ℚ :=
  clipQ p.clip_min p.clip_max (p.raw hist)

/-- `pid_clipped` of the primary controller. -/
def PrimaryPid.pid_clipped (p : PrimaryPid) (hist : List ℚ) : ℚ :=
  clipQ p.clip_min p.clip_max (p.raw hist)

/-- Modelled from the spec: the participant capabilities of `core/darkie.py`
(not under the given sources).  `draw` is the per-slot lottery outcome as an
injected function of (slot, position in the list, stake, Σ, feedback,
smoothed feedback) — the opaque probability law plus the injected randomness
of spec section 9; `run` appends exactly one outcome per slot (spec
section 4.2).  `update_stake` and `resync_stake` are the stake-increasing
updates; `apy`, `apr` and `staked_tokens_ratio` are the pure summary
queries. -/
structure DarkieOps where
  draw : ℕ → ℕ → ℚ → ℚ → ℚ → ℚ → Bool
  update_stake : ℚ → Darkie → Darkie
  resync_stake : ℚ → Darkie → Darkie
  apy : List ℚ → Darkie → ℚ
  apr : Darkie → ℚ
  staked_tokens_ratio : Darkie → ℚ

/-- All injected parameters of a run: the epoch length constant
`EPOCH_LENGTH`, the two controllers, the participant capabilities and the
shuffle used by the resync scan (`random.shuffle`, injected randomness keyed
by a call counter). -/
structure Params where
  epochLength : ℕ
  sec : SecondaryPid
  pri : PrimaryPid
  ops : DarkieOps
  shuffle : ℕ → List Darkie → List Darkie

/-- The engine state (`DarkfiTable` fields plus the locals of `background`
that persist across slots): Σ, the participant list, the `rewards` and
`winners` sequences, the previous slot's winner count `feedback`, the input
histories of the two controllers (their internal state in this model), the
last computed `acc` (`none` when the local variable is still unassigned) and
the shuffle call counter. -/
structure EngineState where
  Sigma : ℚ
  darkies : List Darkie
  rewards : List ℚ
  winners : List ℕ
  feedback : ℚ
  secHist : List ℚ
  priHist : List ℚ
  acc : Option ℚ
  rng : ℕ
deriving DecidableEq

/-- Error raised by Python's `assert` on line 96 of `lottery.py`. -/
def assertMsg : String := "AssertionError"

/-- Error raised by `self.rewards[-1]` on an empty `rewards` list. -/
def rewardsEmptyMsg : String := "IndexError: rewards[-1]"

/-- Error raised by `self.rewards[resync_reward_id]` out of range. -/
def resyncRewardMsg : String := "IndexError: rewards[resync_reward_id]"

/-- Error raised by reading the local `acc` before its first assignment. -/
def accUnsetMsg : String := "NameError: acc"

/-- Python's `round(x, 1)`: rounding to one decimal place (the model uses
mathematical rounding of `10 x` to an integer). -/
def round1 (x : ℚ) : ℚ := (round (10 * x) : ℤ) / 10

/-- `won_hist[-1]` of a participant, used for the winner count and for the
finalization payout; participants always carry one entry per simulated slot,
so the list is never empty where the engine reads it. -/
def lastWon (d : Darkie) : Bool := d.won_hist.getLastD false

/-- `won_hist[t]` of a participant, used by the resync scan. -/
def wonAt (d : Darkie) (t : ℕ) : Bool := d.won_hist.getD t false

/-- Sum of the stakes of a list of participants (the accumulation of
`total_stake` on lines 52–57 of `lottery.py`). -/
def stakeSum (ds : List Darkie) : ℚ := (ds.map Darkie.stake).sum

/-- Lines 53–56 of `lottery.py`: each participant in order receives
`set_sigma_feedback(Σ, feedback, f, count, hp)` and then `run(hp)`, which
appends exactly one outcome to its `won_hist` (spec section 4.2); `i0` is the
position of the first participant of the sublist. -/
def runDarkies (P : Params) (Sg fb f : ℚ) (count i0 : ℕ) :
    List Darkie → List Darkie
  | [] => []
  | d :: ds =>
    { d with won_hist := d.won_hist ++ [P.ops.draw count i0 d.stake Sg fb f] }
      :: runDarkies P Sg fb f count (i0 + 1) ds

/-- Lines 61–62 of `lottery.py`: `winners` is the sum of the boolean
`won_hist[-1]` over all participants, i.e. the number of participants whose
last outcome is a win. -/
def winnersCount (ds : List Darkie) : ℕ := ds.countP lastWon

/-- Lines 67–70 of `lottery.py`: scan the participants in order and give the
first one whose `won_hist[-1]` is true `update_stake(r)`, then stop. -/
def updateFirstWinner (us : ℚ → Darkie → Darkie) (r : ℚ) :
    List Darkie → List Darkie
  | [] => []
  | d :: ds => if lastWon d then us r d :: ds else d :: updateFirstWinner us r ds

/-- Lines 74–79 of `lottery.py`: walk `winners[:-1]` backwards counting
entries `≠ 1`, stopping at the first entry `= 1`. -/
def merge_length (winners : List ℕ) : ℕ :=
  (winners.dropLast.reverse.takeWhile (fun w => w != 1)).length

/-- Lines 86–91 of `lottery.py`: index of the first participant whose
`won_hist[rs]` is true, if any (`darkie_winning_idx` stays at its default `0`
when no participant won slot `rs`). -/
def firstWonIdx? (rs : ℕ) : List Darkie → Option ℕ
  | [] => none
  | d :: ds => if wonAt d rs then some 0 else (firstWonIdx? rs ds).map (· + 1)

/-- In-place update of the element at one index (`self.darkies[i].⋯ = ⋯`). -/
def listModify (f : α → α) : ℕ → List α → List α
  | _, [] => []
  | 0, a :: l => f a :: l
  | n + 1, a :: l => a :: listModify f n l

/-- Lines 80–93 of `lottery.py`, one offset `i` of the resync loop: resolve
slot `count - (i+1)`, look up its epoch's reward, shuffle the participant
list, pay `resync_stake` to the first participant (in the shuffled order)
whose `won_hist` at that slot is true — defaulting to index 0 when there is
none — and add the reward to Σ. -/
def resyncOffset (P : Params) (rewards : List ℚ) (count i : ℕ)
    (ds : List Darkie) (Sg : ℚ) (rng : ℕ) :
    Except String (List Darkie × ℚ × ℕ) :=
  let resync_slot_id := count - (i + 1)
  let resync_reward_id := resync_slot_id / P.epochLength
  match rewards.get? resync_reward_id with
  | none => .error resyncRewardMsg
  | some resync_reward =>
    let shuffled := P.shuffle rng ds
    let idx := (firstWonIdx? resync_slot_id shuffled).getD 0
    .ok (listModify (P.ops.resync_stake resync_reward) idx shuffled,
         Sg + resync_reward, rng + 1)

/-- The resync loop over offsets `i, i+1, …` with `fuel` offsets left. -/
def resyncLoop (P : Params) (rewards : List ℚ) (count : ℕ) :
    ℕ → ℕ → List Darkie → ℚ → ℕ → Except String (List Darkie × ℚ × ℕ)
  | _, 0, ds, Sg, rng => .ok (ds, Sg, rng)
  | i, fuel + 1, ds, Sg, rng =>
    match resyncOffset P rewards count i ds Sg rng with
    | .error e => .error e
    | .ok (ds', Sg', rng') => resyncLoop P rewards count (i + 1) fuel ds' Sg' rng'

/-- The secondary controller's input history including this slot's
`float(feedback)` (line 42 of `lottery.py`). -/
def slotSecHist (st : EngineState) : List ℚ := st.secHist ++ [st.feedback]

/-- `f`, the smoothed leader-count feedback of line 42. -/
def slotF (P : Params) (st : EngineState) : ℚ :=
  P.sec.pid_clipped (slotSecHist st)

/-- Lines 44–48 of `lottery.py`: on an epoch boundary compute `acc`, feed it
to the primary controller and append the clipped output to `rewards`;
otherwise keep `acc`, `rewards` and the primary history unchanged.  Returns
`(acc, rewards, priHist)`. -/
def slotEpoch (P : Params) (count : ℕ) (st : EngineState) :
    Option ℚ × List ℚ × List ℚ :=
  if count % P.epochLength == 0 then
    let a := P.sec.accFn (slotSecHist st)
    let ph := st.priHist ++ [a]
    (some a, st.rewards ++ [P.pri.pid_clipped ph], ph)
  else
    (st.acc, st.rewards, st.priHist)

/-- The `rewards` sequence as of this slot (after the epoch branch). -/
def slotRewards (P : Params) (count : ℕ) (st : EngineState) : List ℚ :=
  (slotEpoch P count st).2.1

/-- The participant list after this slot's per-participant updates. -/
def slotDarkies1 (P : Params) (count : ℕ) (st : EngineState) : List Darkie :=
  runDarkies P st.Sigma st.feedback (slotF P st) count 0 st.darkies

/-- One iteration of the slot loop of `DarkfiTable.background`
(lines 41–96 of `lottery.py`): feedback update, epoch-boundary issuance,
per-participant update, winner aggregation, uniqueness-gated finalization
with the resync scan, the progress report's read of `acc`, and the final
`assert round(total_stake,1) <= round(Σ,1)`. -/
def slotStep (P : Params) (count : ℕ) (st : EngineState) :
    Except String EngineState :=
  let accO := (slotEpoch P count st).1
  let rewards := slotRewards P count st
  let priHist := (slotEpoch P count st).2.2
  let darkies1 := slotDarkies1 P count st
  let total_stake := stakeSum darkies1
  let winners := winnersCount darkies1
  let winnersList := st.winners ++ [winners]
  let fin : Except String (List Darkie × ℚ × ℕ) :=
    if winners == 1 then
      match rewards.getLast? with
      | none => .error rewardsEmptyMsg
      | some r =>
        resyncLoop P rewards count 0 (merge_length winnersList)
          (updateFirstWinner P.ops.update_stake r darkies1)
          (st.Sigma + r) st.rng
    else
      .ok (darkies1, st.Sigma, st.rng)
  match fin with
  | .error e => .error e
  | .ok (darkies2, Sigma2, rng2) =>
    match accO with
    | none => .error accUnsetMsg
    | some _ =>
      if round1 total_stake ≤ round1 Sigma2 then
        .ok { Sigma := Sigma2, darkies := darkies2, rewards := rewards,
              winners := winnersList, feedback := (winners : ℚ),
              secHist := slotSecHist st, priHist := priHist, acc := accO,
              rng := rng2 }
      else
        .error assertMsg

/-- The slot loop: run `fuel` slots starting at slot `count`. -/
def bgLoop (P : Params) : ℕ → ℕ → EngineState → Except String EngineState
  | _, 0, st => .ok st
  | count, fuel + 1, st =>
    match slotStep P count st with
    | .error e => .error e
    | .ok st' => bgLoop P (count + 1) fuel st'

/-- The state at the start of `background`: Σ is the airdrop, `rewards` and
`winners` are empty, `feedback = 0`, both controller histories are empty and
the local `acc` is still unassigned. -/
def initState (airdrop : ℚ) (darkies : List Darkie) : EngineState :=
  { Sigma := airdrop, darkies := darkies, rewards := [], winners := [],
    feedback := 0, secHist := [], priHist := [], acc := none, rng := 0 }

/-- The slot loop of `DarkfiTable.background` run for `running_time` slots
from a fresh state (the effective running time after the optional random
redraw is the argument). -/
def background (P : Params) (running_time : ℕ) (airdrop : ℚ)
    (darkies : List Darkie) : Except String EngineState :=
  bgLoop P 0 running_time (initState airdrop darkies)

/-- Python division, raising `ZeroDivisionError` on a zero denominator. -/
def pydiv (a b : ℚ) : Except String ℚ :=
  if b = 0 then .error "ZeroDivisionError" else .ok (a / b)

/-- Line 99 of `lottery.py`: `sum(self.rewards)/len(self.rewards)`. -/
def avg_reward (st : EngineState) : Except String ℚ :=
  pydiv st.rewards.sum st.rewards.length

/-- `DarkfiTable.avg_stake_ratio` (lines 112–113). -/
def avg_stake_ratio (P : Params) (st : EngineState) : Except String ℚ :=
  pydiv ((st.darkies.map P.ops.staked_tokens_ratio).sum) st.darkies.length

/-- `DarkfiTable.avg_apy` (lines 106–107). -/
def avg_apy (P : Params) (st : EngineState) : Except String ℚ :=
  pydiv ((st.darkies.map (P.ops.apy st.rewards)).sum) st.darkies.length

/-- `DarkfiTable.avg_apr` (lines 109–110). -/
def avg_apr (P : Params) (st : EngineState) : Except String ℚ :=
  pydiv ((st.darkies.map P.ops.apr).sum) st.darkies.length

/-- Lines 99–104 of `lottery.py`: the summary tuple computed at loop
exhaustion, `(acc_percentage, avg_apy, avg_reward, stake_ratio, avg_apr)`;
any ZeroDivisionError in the averages propagates to the caller. -/
def summarize (P : Params) (st : EngineState) :
    Except String (ℚ × ℚ × ℚ × ℚ × ℚ) :=
  match avg_reward st with
  | .error e => .error e
  | .ok ar =>
    match avg_stake_ratio P st with
    | .error e => .error e
    | .ok sr =>
      match avg_apy P st with
      | .error e => .error e
      | .ok apy =>
        match avg_apr P st with
        | .error e => .error e
        | .ok apr => .ok (P.sec.accPctFn (st.secHist), apy, ar, sr, apr)

/-- Lines 115–118 of `lottery.py`: `write` hands each participant its id
`enumerate(self.darkies)` — ids follow the list order at the time of the
call. -/
def writeIds (st : EngineState) : List (ℕ × Darkie) :=
  (List.range st.darkies.length).zip st.darkies

/-! ### The blockchain-explorer search endpoint
(`script/research/blockchain-explorer/site/app.py`) -/

/-- Modelled from the spec: a failure of the remote-procedure-call client
(module `rpc`, not under the given sources).  Spec section 7 treats a lookup
miss as a not-found failure that the application surfaces as an explicit
not-found response. -/
inductive RpcFailure
  | notFound
deriving DecidableEq

/-- A rendered template. -/
inductive Page
  | blockPage (block : String) (transactions : List String)
  | transactionPage (transaction : String)
  | notFoundPage
deriving DecidableEq

/-- Modelled from the spec: the asynchronous RPC client interface the
explorer views call (`rpc.get_block`, `rpc.get_block_transactions`,
`rpc.get_transaction`), each fallible. -/
structure Rpc where
  get_block : String → Except RpcFailure String
  get_block_transactions : String → Except RpcFailure (List String)
  get_transaction : String → Except RpcFailure String

/-- The `try` body of `search` (lines 34–37 of `app.py`): fetch the block and
its transactions, then render the block page; any failure escapes to the
`except` clause. -/
def blockAttempt (rpc : Rpc) (search_hash : String) : Except RpcFailure Page :=
  match rpc.get_block search_hash with
  | .error e => .error e
  | .ok b =>
    match rpc.get_block_transactions search_hash with
    | .error e => .error e
    | .ok ts => .ok (.blockPage b ts)

/-- `search` (lines 31–40 of `app.py`): attempt the block lookup; on any
failure fall back to the transaction lookup; a failure of the fallback
escapes the view function. -/
def search (rpc : Rpc) (search_hash : String) : Except RpcFailure Page :=
  match blockAttempt rpc search_hash with
  | .ok p => .ok p
  | .error _ =>
    match rpc.get_transaction search_hash with
    | .ok t => .ok (.transactionPage t)
    | .error e => .error e

/-- An HTTP response: status code and rendered page. -/
structure Response where
  status : ℕ
  page : Page
deriving DecidableEq

/-- `page_not_found` (lines 53–55 of `app.py`): the registered 404 error
handler renders `404.html` with status 404. -/
def page_not_found : Response := ⟨404, Page.notFoundPage⟩

/-- The application dispatch around the `search` view: a successful render is
returned with status 200, and a not-found failure escaping the view is
handled by the registered 404 error handler (`page_not_found`) instead of
being raised to the caller. -/
def searchEndpoint (rpc : Rpc) (search_hash : String) : Response :=
  match search rpc search_hash with
  | .ok p => ⟨200, p⟩
  | .error .notFound => page_not_found

/-- An RPC client on which every lookup misses. -/
def rpcMiss : Rpc :=
  { get_block := fun _ => .error .notFound,
    get_block_transactions := fun _ => .error .notFound,
    get_transaction := fun _ => .error .notFound }

/-! ### Concrete instantiations of the injected capabilities, used to
exercise the theorems on closed runs. -/

/-- Participant capabilities where nobody ever wins and the stake updates add
the reward to the stake. -/
def opsZero : DarkieOps :=
  { draw := fun _ _ _ _ _ _ => false,
    update_stake := fun r d => { d with stake := d.stake + r },
    resync_stake := fun r d => { d with stake := d.stake + r },
    apy := fun _ _ => 0, apr := fun _ => 0, staked_tokens_ratio := fun _ => 0 }

/-- A zero controller clipped to `[0, 0]`. -/
def secZero : SecondaryPid :=
  { raw := fun _ => 0, clip_min := 0, clip_max := 0,
    accFn := fun _ => 0, accPctFn := fun _ => 0 }

/-- Trivial parameters: epoch length 1, zero controllers, no winners,
identity shuffle. -/
def trivParams : Params :=
  { epochLength := 1, sec := secZero,
    pri := { raw := fun _ => 0, clip_min := 0, clip_max := 0 },
    ops := opsZero, shuffle := fun _ l => l }

/-- The state after slot 0 of a `trivParams` run with no participants and a
zero airdrop. -/
def stTriv : EngineState :=
  { Sigma := 0, darkies := [], rewards := [0], winners := [0], feedback := 0,
    secHist := [0], priHist := [0], acc := some 0, rng := 0 }

/-- A draw where participant 0 wins slots 0 and 2 and nobody else ever
wins. -/
def drawTwoWins : ℕ → ℕ → ℚ → ℚ → ℚ → ℚ → Bool :=
  fun count idx _ _ _ _ => idx == 0 && (count == 0 || count == 2)

/-- Parameters with a constant issuance of 1 per epoch (epoch length 1),
the `drawTwoWins` outcomes and the identity shuffle: slot 1 has no winner,
so the resync at slot 2 resolves a slot nobody won. -/
def cexParams : Params :=
  { epochLength := 1, sec := secZero,
    pri := { raw := fun _ => 1, clip_min := 0, clip_max := 10 },
    ops := { opsZero with draw := drawTwoWins }, shuffle := fun _ l => l }

/-- `cexParams` with a reversing shuffle, so the resync at slot 2 permutes
the participant list in place. -/
def permParams : Params :=
  { cexParams with shuffle := fun _ l => l.reverse }

/-- Participant A: no initial stake. -/
def dA : Darkie := { stake := 0, won_hist := [] }

/-- Participant B: initial stake 5, never wins. -/
def dB : Darkie := { stake := 5, won_hist := [] }

/-- Final state of `background cexParams 3 100 [dA, dB]`. -/
def stC2 : EngineState :=
  { Sigma := 103,
    darkies := [{ stake := 3, won_hist := [true, false, true] },
                { stake := 5, won_hist := [false, false, false] }],
    rewards := [1, 1, 1], winners := [1, 0, 1], feedback := 1,
    secHist := [0, 1, 0], priHist := [0, 0, 0], acc := some 0, rng := 1 }

/-- Final state of `background permParams 3 100 [dA, dB]`: the reversing
shuffle of the resync scan has permuted the participant list. -/
def stC10 : EngineState :=
  { Sigma := 103,
    darkies := [{ stake := 6, won_hist := [false, false, false] },
                { stake := 2, won_hist := [true, false, true] }],
    rewards := [1, 1, 1], winners := [1, 0, 1], feedback := 1,
    secHist := [0, 1, 0], priHist := [0, 0, 0], acc := some 0, rng := 1 }

end Lotterysim

namespace Lotterysim

/-! ### Basic lemmas about the list helpers -/

theorem takeWhile_get?_of_lt {α} (p : α → Bool) (l : List α) :
    ∀ j, j < (l.takeWhile p).length → ∃ w, l.get? j = some w ∧ p w = true := by
  induction l with
  | nil => intro j hj; simp [List.takeWhile] at hj
  | cons a l ih =>
    intro j hj
    by_cases hpa : p a
    · rw [List.takeWhile_cons, if_pos hpa] at hj
      cases j with
      | zero => exact ⟨a, rfl, hpa⟩
      | succ j =>
        obtain ⟨w, hw, hpw⟩ := ih j (by simpa using hj)
        exact ⟨w, by simpa using hw, hpw⟩
    · rw [List.takeWhile_cons, if_neg hpa] at hj
      simp at hj

theorem takeWhile_get?_boundary {α} (p : α → Bool) (l : List α) :
    l.get? (l.takeWhile p).length = none ∨
      ∃ w, l.get? (l.takeWhile p).length = some w ∧ p w = false := by
  induction l with
  | nil => left; rfl
  | cons a l ih =>
    by_cases hpa : p a
    · rcases ih with h | ⟨w, hw, hpw⟩
      · left; rw [List.takeWhile_cons, if_pos hpa]; simpa using h
      · right; exact ⟨w, by rw [List.takeWhile_cons, if_pos hpa]; simpa using hw, hpw⟩
    · right
      refine ⟨a, ?_, by simpa using hpa⟩
      rw [List.takeWhile_cons, if_neg hpa]
      rfl

theorem listModify_length {α} (f : α → α) : ∀ (i : ℕ) (l : List α),
    (listModify f i l).length = l.length := by
  intro i l
  induction l generalizing i with
  | nil => cases i <;> rfl
  | cons a l ih => cases i with
    | zero => rfl
    | succ i => simpa [listModify] using ih i

theorem updateFirstWinner_length (us : ℚ → Darkie → Darkie) (r : ℚ) :
    ∀ ds : List Darkie, (updateFirstWinner us r ds).length = ds.length := by
  intro ds
  induction ds with
  | nil => rfl
  | cons d ds ih =>
    by_cases h : lastWon d <;> simp [updateFirstWinner, h, ih]

theorem runDarkies_length (P : Params) (Sg fb f : ℚ) (count : ℕ) :
    ∀ (i0 : ℕ) (ds : List Darkie), (runDarkies P Sg fb f count i0 ds).length = ds.length := by
  intro i0 ds
  induction ds generalizing i0 with
  | nil => rfl
  | cons d ds ih => simp [runDarkies, ih]

theorem runDarkies_stake (P : Params) (Sg fb f : ℚ) (count : ℕ) :
    ∀ (i0 : ℕ) (ds : List Darkie),
      (runDarkies P Sg fb f count i0 ds).map Darkie.stake = ds.map Darkie.stake := by
  intro i0 ds
  induction ds generalizing i0 with
  | nil => rfl
  | cons d ds ih => simp [runDarkies, ih]

/-! ### Inversion of `slotStep` -/

/-- What a successful slot tells us: the finalization branch returned
`(darkies2, Sigma2, rng2)`, the `acc` local held a value at the progress
report, the end-of-slot assertion held, and the new state is assembled from
these pieces. -/
theorem slotStep_ok_inv {P : Params} {count : ℕ} {st st' : EngineState}
    (h : slotStep P count st = .ok st') :
    ∃ darkies2 Sigma2 rng2 a,
      (if winnersCount (slotDarkies1 P count st) == 1 then
         match (slotRewards P count st).getLast? with
         | none => Except.error rewardsEmptyMsg
         | some r =>
           resyncLoop P (slotRewards P count st) count 0
             (merge_length (st.winners ++ [winnersCount (slotDarkies1 P count st)]))
             (updateFirstWinner P.ops.update_stake r (slotDarkies1 P count st))
             (st.Sigma + r) st.rng
       else .ok (slotDarkies1 P count st, st.Sigma, st.rng))
        = .ok (darkies2, Sigma2, rng2)
      ∧ (slotEpoch P count st).1 = some a
      ∧ round1 (stakeSum (slotDarkies1 P count st)) ≤ round1 Sigma2
      ∧ st' = { Sigma := Sigma2, darkies := darkies2,
                rewards := slotRewards P count st,
                winners := st.winners ++ [winnersCount (slotDarkies1 P count st)],
                feedback := (winnersCount (slotDarkies1 P count st) : ℚ),
                secHist := slotSecHist st, priHist := (slotEpoch P count st).2.2,
                acc := some a, rng := rng2 } := by
  simp only [slotStep] at h
  split at h
  · exact absurd h (by simp)
  · rename_i fin darkies2 Sigma2 rng2 hfin
    split at h
    · exact absurd h (by simp)
    · rename_i a hacc
      split at h
      · rename_i hround
        refine ⟨darkies2, Sigma2, rng2, a, ?_, hacc, hround, ?_⟩
        · exact hfin
        · rw [hacc] at h
          exact (Except.ok.inj h).symm
      · exact absurd h (by simp)

end Lotterysim

namespace Lotterysim

/-- Slot 0 of the trivial run, evaluated. -/
theorem trivRunEq : slotStep trivParams 0 (initState 0 []) = .ok stTriv := by
  norm_num [slotStep, slotEpoch, slotRewards, slotDarkies1, slotSecHist, slotF,
    initState, runDarkies, stakeSum, winnersCount, merge_length, resyncLoop,
    resyncOffset, updateFirstWinner, firstWonIdx?, listModify, lastWon, wonAt,
    round1, round_eq, clipQ, SecondaryPid.pid_clipped, PrimaryPid.pid_clipped,
    trivParams, secZero, opsZero, stTriv]

/-- The three-slot run with identity shuffle, evaluated. -/
theorem cexRunEq : background cexParams 3 100 [dA, dB] = .ok stC2 := by
  norm_num [background, bgLoop, slotStep, slotEpoch, slotRewards, slotDarkies1,
    slotSecHist, slotF, initState, runDarkies, stakeSum, winnersCount,
    merge_length, resyncLoop, resyncOffset, updateFirstWinner, firstWonIdx?,
    listModify, lastWon, wonAt, round1, round_eq, clipQ,
    SecondaryPid.pid_clipped, PrimaryPid.pid_clipped, cexParams, secZero,
    opsZero, drawTwoWins, dA, dB, stC2]

/-- The three-slot run with reversing shuffle, evaluated. -/
theorem permRunEq : background permParams 3 100 [dA, dB] = .ok stC10 := by
  norm_num [background, bgLoop, slotStep, slotEpoch, slotRewards, slotDarkies1,
    slotSecHist, slotF, initState, runDarkies, stakeSum, winnersCount,
    merge_length, resyncLoop, resyncOffset, updateFirstWinner, firstWonIdx?,
    listModify, lastWon, wonAt, round1, round_eq, clipQ,
    SecondaryPid.pid_clipped, PrimaryPid.pid_clipped, permParams, cexParams,
    secZero, opsZero, drawTwoWins, dA, dB, stC10]

/-- C1: at the end-of-slot check, the checked total stake — the sum of the
participants' stakes as accumulated during the per-participant update, before
the slot's payout — rounded to one decimal place is at most the final Σ of
the slot (which includes the payout) rounded to one decimal place, on every
slot that completes; and a slot whose check fails aborts the run immediately
(the error propagates out of the slot loop). -/
theorem stake_supply_check :
    (∀ (P : Params) (count : ℕ) (st st' : EngineState),
      slotStep P count st = .ok st' →
        round1 (stakeSum (slotDarkies1 P count st)) ≤ round1 st'.Sigma)
    ∧ (∀ (P : Params) (count fuel : ℕ) (st : EngineState) (e : String),
      slotStep P count st = .error e → bgLoop P count (fuel + 1) st = .error e) := by
  constructor
  · intro P count st st' h
    obtain ⟨darkies2, Sigma2, rng2, a, _, _, hround, hst'⟩ := slotStep_ok_inv h
    rw [hst']
    exact hround
  · intro P count fuel st e h
    simp [bgLoop, h]

/-- Witness for C1 at a concrete slot. -/
theorem stake_supply_check_witness :
    slotStep trivParams 0 (initState 0 []) = .ok stTriv ∧
      round1 (stakeSum (slotDarkies1 trivParams 0 (initState 0 []))) ≤
        round1 stTriv.Sigma :=
  ⟨trivRunEq, stake_supply_check.1 trivParams 0 (initState 0 []) stTriv trivRunEq⟩

/-- C4: when a slot finalizes, `merge_length` counts the consecutive entries
`≠ 1` of the winners sequence scanned backward from the entry before the
current slot's, stopping at the first entry `= 1` or at the start; for
`winners = [1,0,0,1]` the scan at slot 3 resolves exactly the two slots with
indices 2 and 1. -/
theorem resync_scan_window :
    (∀ ws : List ℕ,
      (∀ j, j < merge_length ws →
        ∃ w, ws.dropLast.reverse.get? j = some w ∧ w ≠ 1)
      ∧ (ws.dropLast.reverse.get? (merge_length ws) = none
          ∨ ws.dropLast.reverse.get? (merge_length ws) = some 1))
    ∧ merge_length [1, 0, 0, 1] = 2
    ∧ (List.range (merge_length [1, 0, 0, 1])).map (fun i => 3 - (i + 1))
        = [2, 1] := by
  refine ⟨fun ws => ⟨?_, ?_⟩, by decide, by decide⟩
  · intro j hj
    obtain ⟨w, hw, hpw⟩ :=
      takeWhile_get?_of_lt (fun w => w != 1) ws.dropLast.reverse j hj
    exact ⟨w, hw, by simpa using hpw⟩
  · rcases takeWhile_get?_boundary (fun w => w != 1) ws.dropLast.reverse with
      h | ⟨w, hw, hpw⟩
    · left; exact h
    · right
      have hw1 : w = 1 := by simpa using hpw
      rw [hw1] at hw
      exact hw

/-- Witness for C4 at the concrete winners sequence `[1,0,0,1]`. -/
theorem resync_scan_window_witness :
    0 < merge_length [1, 0, 0, 1] ∧
      ∃ w, ([1, 0, 0, 1] : List ℕ).dropLast.reverse.get? 0 = some w ∧ w ≠ 1 :=
  ⟨by decide, (resync_scan_window.1 [1, 0, 0, 1]).1 0 (by decide)⟩

end Lotterysim

namespace Lotterysim

/-! ### C5: shape of the rewards sequence -/

theorem slotRewards_eq (P : Params) (count : ℕ) (st : EngineState) :
    slotRewards P count st =
      if count % P.epochLength = 0 then
        st.rewards ++ [P.pri.pid_clipped (st.priHist ++ [P.sec.accFn (slotSecHist st)])]
      else st.rewards := by
  by_cases h : count % P.epochLength = 0 <;>
    simp [slotRewards, slotEpoch, h]

theorem slotStep_ok_rewards {P : Params} {count : ℕ} {st st' : EngineState}
    (h : slotStep P count st = .ok st') :
    st'.rewards = slotRewards P count st := by
  obtain ⟨darkies2, Sigma2, rng2, a, _, _, _, hst'⟩ := slotStep_ok_inv h
  rw [hst']

theorem boundary_count_succ (E c : ℕ) (hE : 0 < E) :
    (c + 1 + E - 1) / E = (c + E - 1) / E + (if c % E = 0 then 1 else 0) := by
  have h1 : c + 1 + E - 1 = (c + E - 1) + 1 := by omega
  rw [h1, Nat.succ_div]
  have h2 : c + E - 1 + 1 = c + E := by omega
  rw [h2]
  congr 1
  have h3 : E ∣ c + E ↔ c % E = 0 := by
    rw [Nat.dvd_add_self_right, Nat.dvd_iff_mod_eq_zero]
  simp [h3]

theorem bgLoop_rewards_len (P : Params) (hE : 0 < P.epochLength) :
    ∀ (fuel count : ℕ) (st st' : EngineState),
      bgLoop P count fuel st = .ok st' →
      st.rewards.length = (count + P.epochLength - 1) / P.epochLength →
      st'.rewards.length = (count + fuel + P.epochLength - 1) / P.epochLength := by
  intro fuel
  induction fuel with
  | zero =>
    intro count st st' h hlen
    simp only [bgLoop] at h
    rw [← Except.ok.inj h]
    simpa using hlen
  | succ fuel ih =>
    intro count st st' h hlen
    rw [bgLoop] at h
    split at h
    · exact absurd h (by simp)
    · rename_i st1 hs
      have hr : st1.rewards = slotRewards P count st := slotStep_ok_rewards hs
      have hlen1 : st1.rewards.length
          = (count + 1 + P.epochLength - 1) / P.epochLength := by
        rw [hr, slotRewards_eq, boundary_count_succ _ _ hE]
        by_cases hb : count % P.epochLength = 0 <;> simp [hb, hlen]
      have hfin := ih (count + 1) st1 st' h hlen1
      have harith : count + 1 + fuel = count + (fuel + 1) := by omega
      rw [harith] at hfin
      exact hfin

/-- C5: exactly one reward is appended per epoch-boundary slot
(`count % EPOCH_LENGTH = 0`) and none otherwise, so after a full run of
`running_time` slots the rewards sequence has exactly
`⌈running_time / EPOCH_LENGTH⌉` entries. -/
theorem rewards_shape :
    (∀ (P : Params) (count : ℕ) (st st' : EngineState), 0 < P.epochLength →
      slotStep P count st = .ok st' →
        st'.rewards =
          (if count % P.epochLength = 0 then
            st.rewards ++
              [P.pri.pid_clipped (st.priHist ++ [P.sec.accFn (slotSecHist st)])]
          else st.rewards))
    ∧ (∀ (P : Params) (T : ℕ) (airdrop : ℚ) (darkies : List Darkie)
        (st' : EngineState), 0 < P.epochLength →
        background P T airdrop darkies = .ok st' →
          st'.rewards.length = (T + P.epochLength - 1) / P.epochLength) := by
  constructor
  · intro P count st st' _ h
    rw [slotStep_ok_rewards h, slotRewards_eq]
  · intro P T airdrop darkies st' hE h
    have h0 : (initState airdrop darkies).rewards.length
        = (0 + P.epochLength - 1) / P.epochLength := by
      simp [initState, Nat.div_eq_of_lt (by omega : P.epochLength - 1 < P.epochLength)]
    have := bgLoop_rewards_len P hE T 0 (initState airdrop darkies) st' h h0
    simpa using this

/-- Run of a single slot with the trivial parameters, evaluated. -/
theorem bgRunEq1 : background trivParams 1 0 [] = .ok stTriv := by
  show bgLoop trivParams 0 (0 + 1) (initState 0 []) = .ok stTriv
  simp only [bgLoop, trivRunEq]

/-- Witness for C5 on a concrete one-slot run. -/
theorem rewards_shape_witness :
    (0 < trivParams.epochLength ∧ background trivParams 1 0 [] = .ok stTriv) ∧
      stTriv.rewards.length
        = (1 + trivParams.epochLength - 1) / trivParams.epochLength :=
  ⟨⟨by decide, bgRunEq1⟩,
    rewards_shape.2 trivParams 1 0 [] stTriv (by decide) bgRunEq1⟩

end Lotterysim

namespace Lotterysim

/-! ### C6: monotonicity of the total supply -/

theorem pid_clipped_ge_min (p : PrimaryPid) (hist : List ℚ) :
    p.clip_min ≤ p.pid_clipped hist :=
  le_max_left _ _

theorem resyncOffset_ok_inv {P : Params} {rewards : List ℚ} {count i : ℕ}
    {ds : List Darkie} {Sg : ℚ} {rng : ℕ} {ds' : List Darkie} {Sg' : ℚ}
    {rng' : ℕ}
    (h : resyncOffset P rewards count i ds Sg rng = .ok (ds', Sg', rng')) :
    ∃ r, rewards.get? ((count - (i + 1)) / P.epochLength) = some r
      ∧ Sg' = Sg + r ∧ rng' = rng + 1
      ∧ ds' = listModify (P.ops.resync_stake r)
          ((firstWonIdx? (count - (i + 1)) (P.shuffle rng ds)).getD 0)
          (P.shuffle rng ds) := by
  simp only [resyncOffset] at h
  split at h
  · exact absurd h (by simp)
  · rename_i r hr
    simp only [Except.ok.injEq, Prod.mk.injEq] at h
    exact ⟨r, hr, h.2.1.symm, h.2.2.symm, h.1.symm⟩

theorem resyncLoop_sigma_le (P : Params) (rewards : List ℚ) (count : ℕ)
    (hrw : ∀ r ∈ rewards, 0 ≤ r) :
    ∀ (fuel i : ℕ) (ds : List Darkie) (Sg : ℚ) (rng : ℕ)
      (ds' : List Darkie) (Sg' : ℚ) (rng' : ℕ),
      resyncLoop P rewards count i fuel ds Sg rng = .ok (ds', Sg', rng') →
      Sg ≤ Sg' := by
  intro fuel
  induction fuel with
  | zero =>
    intro i ds Sg rng ds' Sg' rng' h
    simp only [resyncLoop, Except.ok.injEq, Prod.mk.injEq] at h
    exact le_of_eq h.2.1
  | succ fuel ih =>
    intro i ds Sg rng ds' Sg' rng' h
    rw [resyncLoop] at h
    split at h
    · exact absurd h (by simp)
    · rename_i ds1 Sg1 rng1 hoff
      obtain ⟨r, hr, hSg1, _, _⟩ := resyncOffset_ok_inv hoff
      have h0r : 0 ≤ r := hrw r (List.get?_mem hr)
      have h1 : Sg ≤ Sg1 := by rw [hSg1]; linarith
      exact le_trans h1 (ih _ _ _ _ _ _ _ h)

theorem slotRewards_nonneg {P : Params} {count : ℕ} {st : EngineState}
    (hclip : 0 ≤ P.pri.clip_min) (hrw : ∀ r ∈ st.rewards, 0 ≤ r) :
    ∀ r ∈ slotRewards P count st, 0 ≤ r := by
  rw [slotRewards_eq]
  by_cases hb : count % P.epochLength = 0
  · rw [if_pos hb]
    intro r hr
    rcases List.mem_append.mp hr with h | h
    · exact hrw r h
    · have : r = P.pri.pid_clipped
          (st.priHist ++ [P.sec.accFn (slotSecHist st)]) := by simpa using h
      rw [this]
      exact le_trans hclip (pid_clipped_ge_min _ _)
  · rw [if_neg hb]
    exact hrw

theorem slotStep_sigma_mono {P : Params} {count : ℕ} {st st' : EngineState}
    (hclip : 0 ≤ P.pri.clip_min) (hrw : ∀ r ∈ st.rewards, 0 ≤ r)
    (h : slotStep P count st = .ok st') :
    st.Sigma ≤ st'.Sigma ∧ ∀ r ∈ st'.rewards, 0 ≤ r := by
  have hrw' := @slotRewards_nonneg P count st hclip hrw
  obtain ⟨darkies2, Sigma2, rng2, a, hfin, hacc, hround, hst'⟩ := slotStep_ok_inv h
  have hS : st'.Sigma = Sigma2 := by rw [hst']
  have hR : st'.rewards = slotRewards P count st := by rw [hst']
  refine ⟨?_, by rw [hR]; exact hrw'⟩
  rw [hS]
  split at hfin
  · split at hfin
    · exact absurd hfin (by simp)
    · rename_i r hlast
      have h0r : 0 ≤ r := hrw' r (List.mem_of_mem_getLast? hlast)
      have h1 : st.Sigma + r ≤ Sigma2 :=
        resyncLoop_sigma_le P _ count hrw' _ _ _ _ _ _ _ _ hfin
      linarith
  · simp only [Except.ok.injEq, Prod.mk.injEq] at hfin
    exact le_of_eq hfin.2.1

theorem bgLoop_sigma_mono (P : Params) (hclip : 0 ≤ P.pri.clip_min) :
    ∀ (fuel count : ℕ) (st st' : EngineState),
      (∀ r ∈ st.rewards, 0 ≤ r) → bgLoop P count fuel st = .ok st' →
      st.Sigma ≤ st'.Sigma := by
  intro fuel
  induction fuel with
  | zero =>
    intro count st st' _ h
    simp only [bgLoop] at h
    rw [← Except.ok.inj h]
  | succ fuel ih =>
    intro count st st' hrw h
    rw [bgLoop] at h
    split at h
    · exact absurd h (by simp)
    · rename_i st1 hs
      obtain ⟨h1, hrw1⟩ := slotStep_sigma_mono hclip hrw hs
      exact le_trans h1 (ih (count + 1) st1 st' hrw1 h)

/-- C6: Σ never decreases — per slot and across any stretch of the run —
provided every appended reward is non-negative, which holds whenever the
primary controller's clipping range has `0 ≤ clip_min` (the condition the
claim itself names; the controller body lives outside the given sources and
is modelled from the spec as a clipped transfer). -/
theorem supply_monotonic :
    (∀ (P : Params) (count : ℕ) (st st' : EngineState),
      0 ≤ P.pri.clip_min → (∀ r ∈ st.rewards, 0 ≤ r) →
      slotStep P count st = .ok st' →
        st.Sigma ≤ st'.Sigma ∧ ∀ r ∈ st'.rewards, 0 ≤ r)
    ∧ (∀ (P : Params) (fuel count : ℕ) (st st' : EngineState),
      0 ≤ P.pri.clip_min → (∀ r ∈ st.rewards, 0 ≤ r) →
      bgLoop P count fuel st = .ok st' → st.Sigma ≤ st'.Sigma) :=
  ⟨fun _ _ _ _ hclip hrw h => slotStep_sigma_mono hclip hrw h,
   fun P fuel count st st' hclip hrw h =>
     bgLoop_sigma_mono P hclip fuel count st st' hrw h⟩

/-- Witness for C6 on a concrete one-slot run. -/
theorem supply_monotonic_witness :
    (0 ≤ trivParams.pri.clip_min
      ∧ (∀ r ∈ (initState (0 : ℚ) []).rewards, 0 ≤ r)
      ∧ bgLoop trivParams 0 1 (initState 0 []) = .ok stTriv)
    ∧ (initState (0 : ℚ) []).Sigma ≤ stTriv.Sigma := by
  have h1 : bgLoop trivParams 0 1 (initState 0 []) = .ok stTriv := bgRunEq1
  have h2 : (0 : ℚ) ≤ trivParams.pri.clip_min := le_refl 0
  have h3 : ∀ r ∈ (initState (0 : ℚ) []).rewards, 0 ≤ r := by
    simp [initState]
  exact ⟨⟨h2, h3, h1⟩, supply_monotonic.2 trivParams 1 0 _ _ h2 h3 h1⟩

end Lotterysim

namespace Lotterysim

/-! ### C7: the first epoch boundary runs on slot 0, so `acc` and
`rewards[-1]` never reference an uncomputed value -/

theorem getLast?_append_singleton {α} (l : List α) (a : α) :
    (l ++ [a]).getLast? = some a := by
  simp [List.getLast?_concat]

theorem resyncLoop_error_msg (P : Params) (rewards : List ℚ) (count : ℕ) :
    ∀ (fuel i : ℕ) (ds : List Darkie) (Sg : ℚ) (rng : ℕ) (e : String),
      resyncLoop P rewards count i fuel ds Sg rng = .error e →
      e = resyncRewardMsg := by
  intro fuel
  induction fuel with
  | zero =>
    intro i ds Sg rng e h
    simp [resyncLoop] at h
  | succ fuel ih =>
    intro i ds Sg rng e h
    rw [resyncLoop] at h
    split at h
    · rename_i e1 hoff
      have he : e1 = e := Except.error.inj h
      simp only [resyncOffset] at hoff
      split at hoff
      · rw [← he, ← Except.error.inj hoff]
      · exact absurd hoff (by simp)
    · exact ih _ _ _ _ _ h

end Lotterysim

namespace Lotterysim

theorem slotStep_safe (P : Params) (count : ℕ) (st : EngineState)
    (hacc : (slotEpoch P count st).1.isSome)
    (hrew : slotRewards P count st ≠ []) :
    slotStep P count st ≠ .error accUnsetMsg
    ∧ slotStep P count st ≠ .error rewardsEmptyMsg
    ∧ ∀ st', slotStep P count st = .ok st' →
        st'.acc.isSome ∧ st'.rewards ≠ [] := by
  obtain ⟨a, ha⟩ := Option.isSome_iff_exists.mp hacc
  obtain ⟨r, hr⟩ : ∃ r, (slotRewards P count st).getLast? = some r := by
    cases hl : (slotRewards P count st).getLast? with
    | some r => exact ⟨r, rfl⟩
    | none => exact absurd (List.getLast?_eq_none_iff.mp hl) hrew
  refine ⟨?_, ?_, ?_⟩
  · intro hEq
    simp only [slotStep, ha, hr] at hEq
    split at hEq
    · rename_i e hX
      have he : e = accUnsetMsg := Except.error.inj hEq
      split at hX
      · have := resyncLoop_error_msg P _ count _ _ _ _ _ _ hX
        rw [he] at this
        exact absurd this (by decide)
      · exact absurd hX (by simp)
    · split at hEq
      · exact absurd hEq (by simp)
      · exact absurd (Except.error.inj hEq) (by decide)
  · intro hEq
    simp only [slotStep, ha, hr] at hEq
    split at hEq
    · rename_i e hX
      have he : e = rewardsEmptyMsg := Except.error.inj hEq
      split at hX
      · have := resyncLoop_error_msg P _ count _ _ _ _ _ _ hX
        rw [he] at this
        exact absurd this (by decide)
      · exact absurd hX (by simp)
    · split at hEq
      · exact absurd hEq (by simp)
      · exact absurd (Except.error.inj hEq) (by decide)
  · intro st' hEq
    simp only [slotStep, ha, hr] at hEq
    split at hEq
    · exact absurd hEq (by simp)
    · split at hEq
      · rw [← Except.ok.inj hEq]
        exact ⟨by simp, hrew⟩
      · exact absurd hEq (by simp)

theorem slot_boundary_safe_inputs (P : Params) (count : ℕ) (st : EngineState)
    (hb : count % P.epochLength = 0) :
    (slotEpoch P count st).1.isSome ∧ slotRewards P count st ≠ [] := by
  refine ⟨by simp [slotEpoch, hb], ?_⟩
  rw [slotRewards_eq, if_pos hb]
  simp

theorem slot_inv_safe_inputs (P : Params) (count : ℕ) (st : EngineState)
    (ha : st.acc.isSome) (hr : st.rewards ≠ []) :
    (slotEpoch P count st).1.isSome ∧ slotRewards P count st ≠ [] := by
  by_cases hb : count % P.epochLength = 0
  · exact slot_boundary_safe_inputs P count st hb
  · refine ⟨by simpa [slotEpoch, hb] using ha, ?_⟩
    rw [slotRewards_eq, if_neg hb]
    exact hr

theorem bgLoop_safe (P : Params) :
    ∀ (fuel count : ℕ) (st : EngineState), st.acc.isSome → st.rewards ≠ [] →
      bgLoop P count fuel st ≠ .error accUnsetMsg
      ∧ bgLoop P count fuel st ≠ .error rewardsEmptyMsg := by
  intro fuel
  induction fuel with
  | zero =>
    intro count st _ _
    constructor <;> simp [bgLoop]
  | succ fuel ih =>
    intro count st ha hr
    obtain ⟨hin1, hin2⟩ := slot_inv_safe_inputs P count st ha hr
    obtain ⟨hne1, hne2, hok⟩ := slotStep_safe P count st hin1 hin2
    cases hs : slotStep P count st with
    | error e =>
      have he1 : e ≠ accUnsetMsg := fun h => hne1 (by rw [hs, h])
      have he2 : e ≠ rewardsEmptyMsg := fun h => hne2 (by rw [hs, h])
      constructor <;> simp only [bgLoop, hs] <;> intro hx
      · exact he1 (Except.error.inj hx)
      · exact he2 (Except.error.inj hx)
    | ok st1 =>
      obtain ⟨ha1, hr1⟩ := hok st1 hs
      have hrec := ih (count + 1) st1 ha1 hr1
      constructor <;> simp only [bgLoop, hs]
      · exact hrec.1
      · exact hrec.2

/-- C7: with a positive epoch length, slot 0 is an epoch boundary
(`0 % EPOCH_LENGTH = 0`), so `acc` is assigned and `rewards` is non-empty
before any use: a boundary slot can never fail with the unassigned-`acc` or
empty-`rewards[-1]` errors, a non-boundary slot reuses the previously
computed values without error, and a whole run of at least one slot never
fails with either error. -/
theorem first_epoch_boundary_safety :
    (∀ (P : Params) (count : ℕ) (st : EngineState),
      count % P.epochLength = 0 →
        slotStep P count st ≠ .error accUnsetMsg
        ∧ slotStep P count st ≠ .error rewardsEmptyMsg
        ∧ ∀ st', slotStep P count st = .ok st' →
            st'.acc.isSome ∧ st'.rewards ≠ [])
    ∧ (∀ (P : Params) (count : ℕ) (st : EngineState),
      st.acc.isSome → st.rewards ≠ [] →
        slotStep P count st ≠ .error accUnsetMsg
        ∧ slotStep P count st ≠ .error rewardsEmptyMsg
        ∧ ∀ st', slotStep P count st = .ok st' →
            st'.acc.isSome ∧ st'.rewards ≠ [])
    ∧ (∀ (P : Params) (T : ℕ) (airdrop : ℚ) (darkies : List Darkie),
      0 < P.epochLength → 1 ≤ T →
        background P T airdrop darkies ≠ .error accUnsetMsg
        ∧ background P T airdrop darkies ≠ .error rewardsEmptyMsg) := by
  refine ⟨?_, ?_, ?_⟩
  · intro P count st hb
    obtain ⟨h1, h2⟩ := slot_boundary_safe_inputs P count st hb
    exact slotStep_safe P count st h1 h2
  · intro P count st ha hr
    obtain ⟨h1, h2⟩ := slot_inv_safe_inputs P count st ha hr
    exact slotStep_safe P count st h1 h2
  · intro P T airdrop darkies _ hT
    cases T with
    | zero => omega
    | succ fuel =>
      obtain ⟨hin1, hin2⟩ :=
        slot_boundary_safe_inputs P 0 (initState airdrop darkies)
          (Nat.zero_mod _)
      obtain ⟨hne1, hne2, hok⟩ :=
        slotStep_safe P 0 (initState airdrop darkies) hin1 hin2
      cases hs : slotStep P 0 (initState airdrop darkies) with
      | error e =>
        have he1 : e ≠ accUnsetMsg := fun h => hne1 (by rw [hs, h])
        have he2 : e ≠ rewardsEmptyMsg := fun h => hne2 (by rw [hs, h])
        constructor <;> show bgLoop P 0 (fuel + 1) (initState airdrop darkies) ≠ _ <;>
          simp only [bgLoop, hs] <;> intro hx
        · exact he1 (Except.error.inj hx)
        · exact he2 (Except.error.inj hx)
      | ok st1 =>
        obtain ⟨ha1, hr1⟩ := hok st1 hs
        have hrec := bgLoop_safe P fuel 1 st1 ha1 hr1
        constructor <;> show bgLoop P 0 (fuel + 1) (initState airdrop darkies) ≠ _ <;>
          simp only [bgLoop, hs]
        · exact hrec.1
        · exact hrec.2

/-- Witness for C7 on a concrete one-slot run. -/
theorem first_epoch_boundary_safety_witness :
    (0 < trivParams.epochLength ∧ 1 ≤ 1)
    ∧ (background trivParams 1 0 [] ≠ .error accUnsetMsg
       ∧ background trivParams 1 0 [] ≠ .error rewardsEmptyMsg) :=
  ⟨⟨by decide, le_refl 1⟩,
    first_epoch_boundary_safety.2.2 trivParams 1 0 [] (by decide) (le_refl 1)⟩

end Lotterysim

namespace Lotterysim

/-! ### C3: uniqueness-gated payout -/

theorem countP_lastWon_zero {ds : List Darkie} (h : ds.countP lastWon = 0) :
    ∀ d ∈ ds, lastWon d = false := by
  intro d hd
  have := List.countP_eq_zero.mp h d hd
  simpa using this

theorem updateFirstWinner_unique (us : ℚ → Darkie → Darkie) (r : ℚ) :
    ∀ ds : List Darkie, winnersCount ds = 1 →
      ∃ i d, ds.get? i = some d ∧ lastWon d = true
        ∧ (∀ j dj, ds.get? j = some dj → lastWon dj = true → j = i)
        ∧ updateFirstWinner us r ds = listModify (us r) i ds := by
  intro ds
  induction ds with
  | nil => intro h; simp [winnersCount] at h
  | cons d ds ih =>
    intro h
    rw [winnersCount, List.countP_cons] at h
    by_cases hd : lastWon d
    · have hrest : ds.countP lastWon = 0 := by
        rw [if_pos hd] at h
        omega
      refine ⟨0, d, rfl, hd, ?_, ?_⟩
      · intro j dj hj hw
        cases j with
        | zero => rfl
        | succ j =>
          exfalso
          have hmem : dj ∈ ds := List.get?_mem (by simpa using hj)
          rw [countP_lastWon_zero hrest dj hmem] at hw
          exact Bool.false_ne_true hw
      · simp [updateFirstWinner, hd, listModify]
    · have h' : winnersCount ds = 1 := by
        rw [winnersCount]
        rw [if_neg hd] at h
        omega
      obtain ⟨i, dW, hget, hwon, huniq, hupd⟩ := ih h'
      refine ⟨i + 1, dW, by simpa using hget, hwon, ?_, ?_⟩
      · intro j dj hj hw
        cases j with
        | zero =>
          exfalso
          have : d = dj := by simpa using hj
          rw [← this] at hw
          exact hd (by simpa using hw)
        | succ j =>
          have := huniq j dj (by simpa using hj) hw
          omega
      · simp only [updateFirstWinner, if_neg hd, listModify, hupd]

/-- C3: `update_stake` is called only on slots with exactly one winner: when
`winners_this_slot = 1`, there is a unique participant whose last `won_hist`
entry is true, the payout modifies exactly that participant with
`update_stake(rewards[-1])` and Σ grows by `rewards[-1]` before the resync
scan; when `winners_this_slot ≠ 1`, the finalization leaves the participant
list exactly as the per-participant update produced it and Σ unchanged. -/
theorem uniqueness_gated_payout :
    (∀ (us : ℚ → Darkie → Darkie) (r : ℚ) (ds : List Darkie),
      winnersCount ds = 1 →
        ∃ i d, ds.get? i = some d ∧ lastWon d = true
          ∧ (∀ j dj, ds.get? j = some dj → lastWon dj = true → j = i)
          ∧ updateFirstWinner us r ds = listModify (us r) i ds)
    ∧ (∀ (P : Params) (count : ℕ) (st st' : EngineState),
      slotStep P count st = .ok st' →
        (winnersCount (slotDarkies1 P count st) ≠ 1 →
          st'.darkies = slotDarkies1 P count st ∧ st'.Sigma = st.Sigma)
        ∧ (winnersCount (slotDarkies1 P count st) = 1 →
          ∃ r, (slotRewards P count st).getLast? = some r
            ∧ resyncLoop P (slotRewards P count st) count 0
                (merge_length (st.winners ++ [1]))
                (updateFirstWinner P.ops.update_stake r (slotDarkies1 P count st))
                (st.Sigma + r) st.rng
              = .ok (st'.darkies, st'.Sigma, st'.rng))) := by
  refine ⟨updateFirstWinner_unique, ?_⟩
  intro P count st st' h
  obtain ⟨darkies2, Sigma2, rng2, a, hfin, hacc, hround, hst'⟩ := slotStep_ok_inv h
  have hD : st'.darkies = darkies2 := by rw [hst']
  have hS : st'.Sigma = Sigma2 := by rw [hst']
  have hG : st'.rng = rng2 := by rw [hst']
  constructor
  · intro hne
    rw [if_neg (by simpa using hne)] at hfin
    simp only [Except.ok.injEq, Prod.mk.injEq] at hfin
    exact ⟨by rw [hD, ← hfin.1], by rw [hS, ← hfin.2.1]⟩
  · intro hone
    rw [if_pos (by simpa using hone)] at hfin
    rw [hone] at hfin
    split at hfin
    · exact absurd hfin (by simp)
    · rename_i r hlast
      exact ⟨r, hlast, by rw [hD, hS, hG]; exact hfin⟩

/-- Witness for C3 on a concrete one-participant list with one winner. -/
theorem uniqueness_gated_payout_witness :
    winnersCount [⟨0, [true]⟩] = 1 ∧
      ∃ i d, ([(⟨0, [true]⟩ : Darkie)] : List Darkie).get? i = some d
        ∧ lastWon d = true
        ∧ (∀ j dj, ([(⟨0, [true]⟩ : Darkie)] : List Darkie).get? j = some dj →
            lastWon dj = true → j = i)
        ∧ updateFirstWinner opsZero.update_stake 1 [⟨0, [true]⟩]
            = listModify (opsZero.update_stake 1) i [⟨0, [true]⟩] :=
  ⟨by decide, uniqueness_gated_payout.1 opsZero.update_stake 1 [⟨0, [true]⟩] (by decide)⟩

end Lotterysim

namespace Lotterysim

/-! ### C2: resync attribution -/

theorem firstWonIdx?_some (rs : ℕ) :
    ∀ (ds : List Darkie) (j : ℕ), firstWonIdx? rs ds = some j →
      (∃ d, ds.get? j = some d ∧ wonAt d rs = true)
      ∧ ∀ k dk, k < j → ds.get? k = some dk → wonAt dk rs = false := by
  intro ds
  induction ds with
  | nil => intro j h; simp [firstWonIdx?] at h
  | cons d ds ih =>
    intro j h
    by_cases hw : wonAt d rs
    · rw [firstWonIdx?, if_pos hw] at h
      have hj : j = 0 := (Option.some.inj h).symm
      subst hj
      exact ⟨⟨d, rfl, hw⟩, fun k dk hk _ => absurd hk (Nat.not_lt_zero k)⟩
    · rw [firstWonIdx?, if_neg hw] at h
      obtain ⟨j', hj', hjeq⟩ := Option.map_eq_some'.mp h
      obtain ⟨⟨dW, hget, hwon⟩, hbefore⟩ := ih j' hj'
      subst hjeq
      refine ⟨⟨dW, by simpa using hget, hwon⟩, ?_⟩
      intro k dk hk hgetk
      cases k with
      | zero =>
        have : d = dk := by simpa using hgetk
        rw [← this]
        exact Bool.eq_false_iff.mpr hw
      | succ k =>
        exact hbefore k dk (by omega) (by simpa using hgetk)

/-- C2 (amended): for every resync offset whose epoch reward lookup succeeds,
Σ grows by `resync_reward` and `resync_stake(resync_reward)` goes to the first
participant of the freshly shuffled order whose `won_history` at the resolved
slot is true when such a participant exists — but when no participant's
`won_history` is true at that slot (a resolved slot with zero winners), the
participant at index 0 of the shuffled order receives the payout despite its
false `won_history` entry. -/
theorem resync_attribution (P : Params) (rewards : List ℚ)
    (count i : ℕ) (ds : List Darkie) (Sg : ℚ) (rng : ℕ) (r : ℚ)
    (hr : rewards.get? ((count - (i + 1)) / P.epochLength) = some r) :
    ∃ ds', resyncOffset P rewards count i ds Sg rng = .ok (ds', Sg + r, rng + 1)
      ∧ (∀ j, firstWonIdx? (count - (i + 1)) (P.shuffle rng ds) = some j →
          ds' = listModify (P.ops.resync_stake r) j (P.shuffle rng ds)
          ∧ (∃ d, (P.shuffle rng ds).get? j = some d
              ∧ wonAt d (count - (i + 1)) = true)
          ∧ ∀ k dk, k < j → (P.shuffle rng ds).get? k = some dk →
              wonAt dk (count - (i + 1)) = false)
      ∧ (firstWonIdx? (count - (i + 1)) (P.shuffle rng ds) = none →
          ds' = listModify (P.ops.resync_stake r) 0 (P.shuffle rng ds)) := by
  refine ⟨listModify (P.ops.resync_stake r)
      ((firstWonIdx? (count - (i + 1)) (P.shuffle rng ds)).getD 0)
      (P.shuffle rng ds), ?_, ?_, ?_⟩
  · simp only [resyncOffset, hr]
  · intro j hj
    obtain ⟨hex, hbefore⟩ := firstWonIdx?_some (count - (i + 1)) (P.shuffle rng ds) j hj
    exact ⟨by rw [hj]; rfl, hex, hbefore⟩
  · intro hnone
    rw [hnone]
    rfl

/-- Witness for the amended C2 at a concrete resync offset. -/
theorem resync_attribution_witness :
    (([(1 : ℚ)] : List ℚ).get? ((1 - (0 + 1)) / trivParams.epochLength) = some 1)
    ∧ ∃ ds', resyncOffset trivParams [1] 1 0 [] 0 0 = .ok (ds', 0 + 1, 0 + 1)
      ∧ (∀ j, firstWonIdx? (1 - (0 + 1)) (trivParams.shuffle 0 []) = some j →
          ds' = listModify (trivParams.ops.resync_stake 1) j (trivParams.shuffle 0 [])
          ∧ (∃ d, (trivParams.shuffle 0 []).get? j = some d
              ∧ wonAt d (1 - (0 + 1)) = true)
          ∧ ∀ k dk, k < j → (trivParams.shuffle 0 []).get? k = some dk →
              wonAt dk (1 - (0 + 1)) = false)
      ∧ (firstWonIdx? (1 - (0 + 1)) (trivParams.shuffle 0 []) = none →
          ds' = listModify (trivParams.ops.resync_stake 1) 0 (trivParams.shuffle 0 [])) := by
  have hr : (([(1 : ℚ)] : List ℚ).get? ((1 - (0 + 1)) / trivParams.epochLength)
      = some 1) := rfl
  exact ⟨hr, resync_attribution trivParams [1] 1 0 [] 0 0 1 hr⟩

/-- C2 (counterexample): in the concrete run `background cexParams 3 100
[dA, dB]`, slot 1 has zero winners, yet the resync at slot 2 pays
`resync_stake` to participant 0 (whose `won_history[1]` is false, like
everyone's) and adds the resync reward to Σ: a participant with a false
`won_history` entry at the resolved slot receives the resync payout. -/
theorem resync_attribution_cex :
    background cexParams 3 100 [dA, dB] = .ok stC2
    ∧ (stC2.darkies.all fun d => wonAt d 1 == false) = true
    ∧ stC2.Sigma = 103
    ∧ stC2.darkies.map Darkie.stake = [3, 5]
    ∧ resyncOffset cexParams [1, 1, 1] 2 0
        [⟨2, [true, false, true]⟩, ⟨5, [false, false, false]⟩] 102 0
      = .ok ([⟨3, [true, false, true]⟩, ⟨5, [false, false, false]⟩], 103, 1)
    ∧ wonAt ⟨2, [true, false, true]⟩ 1 = false := by
  refine ⟨cexRunEq, by decide, rfl, rfl, ?_, by decide⟩
  norm_num [resyncOffset, firstWonIdx?, wonAt, listModify, cexParams, opsZero,
    secZero, drawTwoWins]

end Lotterysim

namespace Lotterysim

/-! ### C8: empty-input summaries raise -/

/-- C8: when the run ends with an empty rewards sequence or with no
participants, the summary computation raises an explicit division-by-zero
error that propagates to the caller, never a silent junk value; a successful
summary certifies both inputs were non-empty. -/
theorem empty_input_summaries :
    (∀ (P : Params) (st : EngineState), st.rewards = [] →
      summarize P st = .error "ZeroDivisionError")
    ∧ (∀ (P : Params) (st : EngineState), st.darkies = [] →
      summarize P st = .error "ZeroDivisionError")
    ∧ (∀ (P : Params) (st : EngineState) (res : ℚ × ℚ × ℚ × ℚ × ℚ),
      summarize P st = .ok res → st.rewards ≠ [] ∧ st.darkies ≠ []) := by
  refine ⟨?_, ?_, ?_⟩
  · intro P st h
    simp [summarize, avg_reward, pydiv, h]
  · intro P st h
    simp only [summarize]
    cases har : avg_reward st with
    | error e =>
      have he : e = "ZeroDivisionError" := by
        simp only [avg_reward, pydiv] at har
        split at har
        · exact (Except.error.inj har).symm
        · exact absurd har (by simp)
      rw [he]
    | ok ar =>
      have hsr : avg_stake_ratio P st = .error "ZeroDivisionError" := by
        simp [avg_stake_ratio, pydiv, h]
      rw [hsr]
  · intro P st res h
    simp only [summarize] at h
    split at h
    · exact absurd h (by simp)
    · rename_i ar har
      split at h
      · exact absurd h (by simp)
      · rename_i sr hsr
        constructor
        · intro hrw
          rw [avg_reward, pydiv] at har
          rw [if_pos (by simp [hrw])] at har
          exact absurd har (by simp)
        · intro hds
          rw [avg_stake_ratio, pydiv] at hsr
          rw [if_pos (by simp [hds])] at hsr
          exact absurd hsr (by simp)

/-- Witness for C8 at a concrete empty-rewards state. -/
theorem empty_input_summaries_witness :
    (initState (0 : ℚ) []).rewards = []
    ∧ summarize trivParams (initState 0 []) = .error "ZeroDivisionError" :=
  ⟨rfl, empty_input_summaries.1 trivParams (initState 0 []) rfl⟩

/-! ### C9: the explorer search fallback -/

/-- C9: the combined search endpoint first attempts the block lookup (block
plus transactions); on any failure of that attempt it falls back to the
transaction lookup; and when the fallback also fails, the user receives the
explicit not-found response (`page_not_found`, status 404) rather than having
the failure raised to the caller. -/
theorem search_fallback :
    (∀ (rpc : Rpc) (h b : String) (ts : List String),
      rpc.get_block h = .ok b → rpc.get_block_transactions h = .ok ts →
        searchEndpoint rpc h = ⟨200, .blockPage b ts⟩)
    ∧ (∀ (rpc : Rpc) (h : String) (e : RpcFailure) (t : String),
      blockAttempt rpc h = .error e → rpc.get_transaction h = .ok t →
        searchEndpoint rpc h = ⟨200, .transactionPage t⟩)
    ∧ (∀ (rpc : Rpc) (h : String) (e e' : RpcFailure),
      blockAttempt rpc h = .error e → rpc.get_transaction h = .error e' →
        searchEndpoint rpc h = page_not_found) := by
  refine ⟨?_, ?_, ?_⟩
  · intro rpc h b ts hb hts
    simp [searchEndpoint, search, blockAttempt, hb, hts]
  · intro rpc h e t hblock ht
    simp [searchEndpoint, search, hblock, ht]
  · intro rpc h e e' hblock ht
    cases e'
    simp [searchEndpoint, search, hblock, ht]

/-- Witness for C9: both lookups miss, the user gets the 404 page. -/
theorem search_fallback_witness :
    (blockAttempt rpcMiss "deadbeef" = .error .notFound
      ∧ rpcMiss.get_transaction "deadbeef" = .error .notFound)
    ∧ searchEndpoint rpcMiss "deadbeef" = page_not_found :=
  ⟨⟨rfl, rfl⟩, search_fallback.2.2 rpcMiss "deadbeef" .notFound .notFound rfl rfl⟩

/-! ### C10: the run permutes the participant list in place but neither adds
nor removes participants -/

theorem resyncLoop_length (P : Params)
    (hsh : ∀ (k : ℕ) (l : List Darkie), (P.shuffle k l).length = l.length)
    (rewards : List ℚ) (count : ℕ) :
    ∀ (fuel i : ℕ) (ds : List Darkie) (Sg : ℚ) (rng : ℕ)
      (ds' : List Darkie) (Sg' : ℚ) (rng' : ℕ),
      resyncLoop P rewards count i fuel ds Sg rng = .ok (ds', Sg', rng') →
      ds'.length = ds.length := by
  intro fuel
  induction fuel with
  | zero =>
    intro i ds Sg rng ds' Sg' rng' h
    simp only [resyncLoop, Except.ok.injEq, Prod.mk.injEq] at h
    rw [← h.1]
  | succ fuel ih =>
    intro i ds Sg rng ds' Sg' rng' h
    rw [resyncLoop] at h
    split at h
    · exact absurd h (by simp)
    · rename_i ds1 Sg1 rng1 hoff
      obtain ⟨r, _, _, _, hds1⟩ := resyncOffset_ok_inv hoff
      have h1 : ds1.length = ds.length := by
        rw [hds1, listModify_length, hsh]
      rw [ih _ _ _ _ _ _ _ h, h1]

theorem slotStep_darkies_length {P : Params} {count : ℕ} {st st' : EngineState}
    (hsh : ∀ (k : ℕ) (l : List Darkie), (P.shuffle k l).length = l.length)
    (h : slotStep P count st = .ok st') :
    st'.darkies.length = st.darkies.length := by
  obtain ⟨darkies2, Sigma2, rng2, a, hfin, _, _, hst'⟩ := slotStep_ok_inv h
  have hD : st'.darkies = darkies2 := by rw [hst']
  have hd1 : (slotDarkies1 P count st).length = st.darkies.length :=
    runDarkies_length P _ _ _ _ _ _
  rw [hD]
  split at hfin
  · split at hfin
    · exact absurd hfin (by simp)
    · rename_i r hlast
      have := resyncLoop_length P hsh _ count _ _ _ _ _ _ _ _ hfin
      rw [this, updateFirstWinner_length, hd1]
  · simp only [Except.ok.injEq, Prod.mk.injEq] at hfin
    rw [← hfin.1, hd1]

theorem bgLoop_darkies_length (P : Params)
    (hsh : ∀ (k : ℕ) (l : List Darkie), (P.shuffle k l).length = l.length) :
    ∀ (fuel count : ℕ) (st st' : EngineState),
      bgLoop P count fuel st = .ok st' →
      st'.darkies.length = st.darkies.length := by
  intro fuel
  induction fuel with
  | zero =>
    intro count st st' h
    simp only [bgLoop] at h
    rw [← Except.ok.inj h]
  | succ fuel ih =>
    intro count st st' h
    rw [bgLoop] at h
    split at h
    · exact absurd h (by simp)
    · rename_i st1 hs
      rw [ih _ _ _ h, slotStep_darkies_length hsh hs]

/-- C10: a run may permute the participant list in place (the resync scan
shuffles `self.darkies` itself): in the concrete reversing-shuffle run the
participant that ends at index 0 is the one added at index 1, and `write`'s
enumerated ids follow this post-run order; yet no run adds or removes
participants — whenever the shuffle preserves length (as `random.shuffle`
does), the final list has exactly as many participants as the initial
one. -/
theorem darkies_frame :
    (∀ (P : Params) (fuel count : ℕ) (st st' : EngineState),
      (∀ (k : ℕ) (l : List Darkie), (P.shuffle k l).length = l.length) →
      bgLoop P count fuel st = .ok st' →
        st'.darkies.length = st.darkies.length)
    ∧ background permParams 3 100 [dA, dB] = .ok stC10
    ∧ stC10.darkies.map Darkie.stake = [6, 2]
    ∧ [dA, dB].map Darkie.stake = [0, 5]
    ∧ writeIds stC10 = [(0, ⟨6, [false, false, false]⟩),
                        (1, ⟨2, [true, false, true]⟩)] :=
  ⟨fun P fuel count st st' hsh h => bgLoop_darkies_length P hsh fuel count st st' h,
   permRunEq, rfl, rfl, rfl⟩

/-- Witness for C10 on the concrete reversing-shuffle run. -/
theorem darkies_frame_witness :
    ((∀ (k : ℕ) (l : List Darkie), (permParams.shuffle k l).length = l.length)
      ∧ background permParams 3 100 [dA, dB] = .ok stC10)
    ∧ stC10.darkies.length = (initState (100 : ℚ) [dA, dB]).darkies.length := by
  have hsh : ∀ (k : ℕ) (l : List Darkie),
      (permParams.shuffle k l).length = l.length := by
    intro k l
    simp [permParams, cexParams]
  exact ⟨⟨hsh, permRunEq⟩,
    darkies_frame.1 permParams 3 0 (initState 100 [dA, dB]) stC10 hsh permRunEq⟩

end Lotterysim
